import Mathlib

/-!
Verification of the crossword CSP solver in `src/crossword/generate.py`
(class `CrosswordCreator`).

The solver's helper module `crossword.py` (classes `Variable` and
`Crossword`) is not part of the sources; its data model is modelled from
the specification (§3, §4.1).  Everything else is a direct shallow
embedding of the Python code in `generate.py`:

* Python strings are `List Char`, indexed by `l[i]?`; an out-of-range
  index raises `PyErr.indexError`.
* Python sets and dicts are lists (in iteration order).  Removing an
  element from a set while iterating it raises
  `PyErr.runtimeError` at the next step of the iteration, as CPython does.
* Reading a local variable that was never assigned raises
  `PyErr.unboundLocalError`; `min` of an empty sequence raises
  `PyErr.valueError`; subscripting `None` raises `PyErr.typeError`.
* Fallible code returns `Except PyErr`.
* The mutable per-instance dictionary `self.domains_of_x` is threaded
  explicitly as a value of type `Domains`.
* The worklist loop of `ac3` and the recursion of `backtrack` are given a
  fuel parameter so that they are structurally recursive; the fuel chosen
  by the callers is provably sufficient (the loops never grow beyond it),
  and the fuel-exhaustion clauses return the same shape as the normal
  loop exit, so the lemmas below do not depend on them.
-/

/-- Python exception kinds that the embedded code can raise. -/
inductive PyErr : Type
  | runtimeError
  | indexError
  | typeError
  | valueError
  | unboundLocalError
deriving DecidableEq

/-- Modelled from the spec: the two word-slot directions of a `Variable`. -/
inductive Direction : Type
  | across
  | down
deriving DecidableEq

/-- Modelled from the spec (§3): a word slot, with starting row `i`,
starting column `j`, a direction and a length; two variables are equal
iff all four attributes match. -/
structure Variable : Type where
  i : Nat
  j : Nat
  direction : Direction
  length : Nat
deriving DecidableEq

/-- A Python string, as a list of characters. -/
abbrev Word : Type := List Char

/-- An ordered pair of variables, an arc of the AC-3 worklist. -/
abbrev Arc : Type := Variable × Variable

/-- Modelled from the spec (§3, §4.1): the immutable puzzle structure —
the list of variables (field `vars`, for Python `crossword.variables`), the word list, and the overlap map giving, for an
ordered pair of intersecting variables, the pair of character indices
that must agree (`none` when the pair does not intersect). -/
structure Crossword : Type where
  vars : List Variable
  words : List Word
  overlaps : Variable → Variable → Option (Nat × Nat)

/-- Modelled from the spec (§4.1): `Neighbors(x)` is the set of variables
`y ≠ x` for which `Overlap(x, y)` is defined. -/
def Crossword.neighbors (cw : Crossword) (v : Variable) : List Variable :=
  cw.vars.filter (fun u => decide (u ≠ v) && (cw.overlaps v u).isSome)

/-- The mutable domain store `self.domains_of_x`: candidate words per
variable. -/
abbrev Domains : Type := Variable → List Word

/-- Store `ws` as the domain of `v` (in-place dictionary update). -/
def setDom (d : Domains) (v : Variable) (ws : List Word) : Domains :=
  fun u => if u = v then ws else d u

/-- `CrosswordCreator.__init__`: every domain starts as a copy of the
full word list. -/
def initDomains (cw : Crossword) : Domains :=
  fun _ => cw.words

/-- A (partial) assignment: a Python dict from variables to words,
in insertion order. -/
abbrev Assignment : Type := List (Variable × Word)

/-- `enforce_node_consistency`: for every variable remove every candidate
word whose length differs from the variable's length (the Python loops
over a copy of the set, so no iterator invalidation occurs). -/
def enforce_node_consistency (cw : Crossword) (doms : Domains) : Domains :=
  cw.vars.foldl
    (fun d var => setDom d var ((d var).filter (fun w => w.length = var.length)))
    doms

/-- The list comprehension in `revise`:
`[True if y_word[overlap[1]] == x_word[overlap[0]] else None for y_word in self.domains_of_x[y]]`.
One entry per `y_word`; indexing out of range raises `IndexError`. -/
def reviseComp (xw : Word) (ov : Nat × Nat) : List Word → Except PyErr (List Bool)
  | [] => .ok []
  | yw :: rest =>
    match yw[ov.2]? with
    | none => .error .indexError
    | some cy =>
      match xw[ov.1]? with
      | none => .error .indexError
      | some cx => (reviseComp xw ov rest).map (fun l => (cy = cx : Bool) :: l)

/-- The `for x_word in self.domains_of_x[x]` loop of `revise`.  `xWords`
is the iterator's remaining snapshot, `domX` the current (possibly
mutated) domain of `x`, `revised` the flag, and `mutated` records that
the set changed size since the iterator was created — in that case
CPython raises `RuntimeError` at the very next step of the iteration. -/
def reviseLoop (ov : Nat × Nat) (yDom : List Word) :
    List Word → List Word → Bool → Bool → Except PyErr (List Word × Bool)
  | [], domX, revised, mutated =>
    if mutated then .error .runtimeError else .ok (domX, revised)
  | xw :: rest, domX, revised, mutated =>
    if mutated then .error .runtimeError
    else
      match reviseComp xw ov yDom with
      | .error e => .error e
      | .ok l =>
        if l.isEmpty then reviseLoop ov yDom rest (domX.erase xw) true true
        else reviseLoop ov yDom rest domX revised mutated

/-- `revise(x, y)` of `generate.py`. -/
def revise (cw : Crossword) (doms : Domains) (x y : Variable) :
    Except PyErr (Domains × Bool) :=
  match cw.overlaps x y with
  | none => .ok (doms, false)
  | some ov =>
    match reviseLoop ov (doms y) (doms x) (doms x) false false with
    | .error e => .error e
    | .ok (domX, revised) => .ok (setDom doms x domX, revised)

/-- The initial worklist built by `ac3` when no (non-empty) arc list is
supplied: every `(var1, var2)` with `var2` a neighbor of `var1`. -/
def buildAllArcs (cw : Crossword) : List Arc :=
  cw.vars.flatMap (fun v1 => (cw.neighbors v1).map (fun v2 => (v1, v2)))

/-- The `if not arcs:` test of `ac3`: both `None` and an explicitly
supplied empty list are falsy, so both trigger a full worklist rebuild. -/
def ac3InitArcs (cw : Crossword) (arcs : Option (List Arc)) : List Arc :=
  match arcs with
  | none => buildAllArcs cw
  | some l => if l.isEmpty then buildAllArcs cw else l

/-- One arc is re-queued for each neighbor `var ≠ arc[1]` of `arc[0]`,
unless already present; appends mutate the worklist one at a time, each
checking membership against the worklist as grown so far. -/
def requeue (cw : Crossword) (arc : Arc) (rest : List Arc) : List Arc :=
  (cw.neighbors arc.1).foldl
    (fun acc v =>
      if v = arc.2 then acc
      else if (v, arc.1) ∈ acc then acc else acc ++ [(v, arc.1)])
    rest

/-- The `while arcs:` loop of `ac3`, popping arcs FIFO.  The fuel
parameter makes the recursion structural; since `revise` never reports a
revision (`revise_ok`), the worklist in fact never grows, so fuel equal
to the initial worklist length is sufficient and the fuel-exhaustion
clause (which mirrors the loop exit) is never reached. -/
def ac3Loop (cw : Crossword) : Nat → List Arc → Domains → Except PyErr (Domains × Bool)
  | _, [], doms => .ok (doms, true)
  | 0, _ :: _, doms => .ok (doms, true)
  | fuel + 1, arc :: rest, doms =>
    match revise cw doms arc.1 arc.2 with
    | .error e => .error e
    | .ok (doms', revised) =>
      if revised then
        if (doms' arc.1).isEmpty then .ok (doms', false)
        else ac3Loop cw fuel (requeue cw arc rest) doms'
      else ac3Loop cw fuel rest doms'

/-- `ac3(arcs)` of `generate.py`. -/
def ac3 (cw : Crossword) (doms : Domains) (arcs : Option (List Arc)) :
    Except PyErr (Domains × Bool) :=
  ac3Loop cw (ac3InitArcs cw arcs).length (ac3InitArcs cw arcs) doms

/-- The inner `for var2, val2 in assignment.items()` loop of `consistent`,
for a fixed outer item `(v1, w1)`: skip `var1 == var2`, skip pairs with no
overlap, return `False` on a character mismatch (indexing a word out of
range raises `IndexError`). -/
def pairCheckInner (ovfn : Variable → Variable → Option (Nat × Nat))
    (v1 : Variable) (w1 : Word) : Assignment → Except PyErr Bool
  | [] => .ok true
  | (v2, w2) :: rest =>
    if v1 = v2 then pairCheckInner ovfn v1 w1 rest
    else
      match ovfn v1 v2 with
      | none => pairCheckInner ovfn v1 w1 rest
      | some ov =>
        match w1[ov.1]? with
        | none => .error .indexError
        | some c1 =>
          match w2[ov.2]? with
          | none => .error .indexError
          | some c2 => if c1 ≠ c2 then .ok false else pairCheckInner ovfn v1 w1 rest

/-- The outer `for var1, val1 in assignment.items()` loop of `consistent`:
both loops range over the whole assignment. -/
def pairCheckOuter (ovfn : Variable → Variable → Option (Nat × Nat))
    (whole : Assignment) : Assignment → Except PyErr Bool
  | [] => .ok true
  | (v1, w1) :: rest =>
    match pairCheckInner ovfn v1 w1 whole with
    | .error e => .error e
    | .ok false => .ok false
    | .ok true => pairCheckOuter ovfn whole rest

/-- The second loop of `consistent`: values must be pairwise distinct and
each value's length must equal its variable's length (`values` is the
accumulator list of the Python code). -/
def distinctLengthCheck : Assignment → List Word → Bool
  | [], _ => true
  | (v, w) :: rest, values =>
    if w ∈ values ∨ w.length ≠ v.length then false
    else distinctLengthCheck rest (values ++ [w])

/-- `consistent(assignment)` of `generate.py`.  It reads no mutable
solver state besides its argument and performs no mutation (it is a pure
function of the overlap map and the assignment). -/
def consistent (cw : Crossword) (a : Assignment) : Except PyErr Bool :=
  match pairCheckOuter cw.overlaps a a with
  | .error e => .error e
  | .ok false => .ok false
  | .ok true => .ok (distinctLengthCheck a [])

/-- Spec (§4.4): every pair of distinct assigned variables with a defined
overlap agrees at the overlap indices (both positions in range and
holding the same character). -/
def specOverlapsAgree (cw : Crossword) (a : Assignment) : Prop :=
  ∀ p ∈ a, ∀ q ∈ a, p.1 ≠ q.1 →
    ∀ ov : Nat × Nat, cw.overlaps p.1 q.1 = some ov →
      ∃ c, p.2[ov.1]? = some c ∧ q.2[ov.2]? = some c

/-- Spec (§4.4): every assigned word's length equals its variable's
length. -/
def specLengthsOk (a : Assignment) : Prop :=
  ∀ p ∈ a, p.2.length = p.1.length

/-- Spec (§4.4): all assigned words are pairwise distinct across the
whole assignment. -/
def specWordsDistinct (a : Assignment) : Prop :=
  (a.map Prod.snd).Nodup

/-- The inner loop of `order_domain_values` over one neighbor's domain:
`if neighbor_word[overlap[1]] != word[overlap[0]]: amount_eliminated += 1`. -/
def countElims (ov : Nat × Nat) (xw : Word) : List Word → Except PyErr Nat
  | [] => .ok 0
  | nw :: rest =>
    match nw[ov.2]? with
    | none => .error .indexError
    | some cn =>
      match xw[ov.1]? with
      | none => .error .indexError
      | some cx => (countElims ov xw rest).map (fun n => if cn ≠ cx then n + 1 else n)

/-- The `for neighbor in self.crossword.neighbors(var)` loop of
`order_domain_values`: assigned neighbors are skipped; for the others the
overlap is read and used unconditionally (subscripting a `None` overlap
would raise `TypeError`, which cannot happen for a neighbor). -/
def elimForWord (cw : Crossword) (doms : Domains) (a : Assignment) (var : Variable)
    (w : Word) : List Variable → Except PyErr Nat
  | [] => .ok 0
  | nb :: rest =>
    if nb ∈ a.map Prod.fst then elimForWord cw doms a var w rest
    else
      match cw.overlaps var nb with
      | none => .error .typeError
      | some ov =>
        match countElims ov w (doms nb) with
        | .error e => .error e
        | .ok n => (elimForWord cw doms a var w rest).map (fun m => n + m)

/-- The `ordered_domains` list of `order_domain_values`: one
`(amount_eliminated, word)` pair per word of `Domain(var)`, in domain
order. -/
def buildElimPairs (cw : Crossword) (doms : Domains) (a : Assignment) (var : Variable) :
    List Word → Except PyErr (List (Nat × Word))
  | [] => .ok []
  | w :: rest =>
    match elimForWord cw doms a var w (cw.neighbors var) with
    | .error e => .error e
    | .ok n => (buildElimPairs cw doms a var rest).map (fun l => (n, w) :: l)

/-- Stable insertion used to model `list.sort(key=lambda tup: tup[0])`
(Python's sort is stable and ascending in the key). -/
def insertByCount (p : Nat × Word) : List (Nat × Word) → List (Nat × Word)
  | [] => [p]
  | q :: rest => if p.1 ≤ q.1 then p :: q :: rest else q :: insertByCount p rest

/-- Stable ascending sort by the first (count) component. -/
def sortByCount : List (Nat × Word) → List (Nat × Word)
  | [] => []
  | p :: rest => insertByCount p (sortByCount rest)

/-- `order_domain_values(var, assignment)` of `generate.py`. -/
def order_domain_values (cw : Crossword) (doms : Domains) (a : Assignment)
    (var : Variable) : Except PyErr (List Word) :=
  match buildElimPairs cw doms a var (doms var) with
  | .error e => .error e
  | .ok pairs => .ok ((sortByCount pairs).map Prod.snd)

/-- Spec (§4.5): the elimination count of candidate `w` for `var` — the
sum, over each unassigned neighbor of `var`, of the number of words in
that neighbor's domain whose character at the neighbor's overlap index
differs from the word's character at var's overlap index. -/
def specElimCount (cw : Crossword) (doms : Domains) (a : Assignment) (var : Variable)
    (w : Word) : Nat :=
  (((cw.neighbors var).filter (fun nb => decide (nb ∉ a.map Prod.fst))).map
    (fun nb =>
      match cw.overlaps var nb with
      | some ov => (doms nb).countP (fun nw => decide (nw[ov.2]? ≠ w[ov.1]?))
      | none => 0)).sum

/-- Python's `min(length_of_domain, key=lambda tup: tup[0])[0]`: the
minimum domain size among the listed variables; `min` of an empty
sequence raises `ValueError`. -/
def pyMinDomainLen (doms : Domains) : List Variable → Except PyErr Nat
  | [] => .error .valueError
  | u :: rest =>
    .ok (rest.foldl (fun m v => if (doms v).length < m then (doms v).length else m)
      (doms u).length)

/-- `select_unassigned_variable(assignment)` of `generate.py`.  When two
or more variables tie for the minimal domain size, the degree loop only
binds `var_to_be_assigned` on a strict improvement over the initial
`max_degree = 0`, so if every tied variable has zero neighbors the final
`return` reads an unbound local. -/
def select_unassigned_variable (cw : Crossword) (doms : Domains) (a : Assignment) :
    Except PyErr Variable :=
  match pyMinDomainLen doms (cw.vars.filter (fun v => decide (v ∉ a.map Prod.fst))) with
  | .error e => .error e
  | .ok minLen =>
    match (cw.vars.filter (fun v => decide (v ∉ a.map Prod.fst))).filter
        (fun v => decide ((doms v).length = minLen)) with
    | [] => .error .indexError
    | t :: ties =>
      if (t :: ties).length > 1 then
        match ((t :: ties).foldl (fun acc v =>
            if (cw.neighbors v).length > acc.1 then ((cw.neighbors v).length, some v) else acc)
            ((0 : Nat), (none : Option Variable))).2 with
        | some v => .ok v
        | none => .error .unboundLocalError
      else .ok t

/-- `new_assignment = assignment.copy(); new_assignment[var] = value`:
a dict update, keeping the insertion position of an existing key. -/
def dictSet (a : Assignment) (var : Variable) (w : Word) : Assignment :=
  if var ∈ a.map Prod.fst then a.map (fun p => if p.1 = var then (var, w) else p)
  else a ++ [(var, w)]

/-- The arc list built in `backtrack` before its restricted `ac3` call:
`[(neighbor, var) for neighbor in self.crossword.neighbors(var)]`. -/
def backtrackArcs (cw : Crossword) (var : Variable) : List Arc :=
  (cw.neighbors var).map (fun nb => (nb, var))

/-- Python truthiness of `result` in `backtrack`: `None` and the empty
dict are falsy. -/
def pyTruthy : Option Assignment → Bool
  | none => false
  | some l => !l.isEmpty

/-- `assignment_complete(assignment)`: `assignment.keys() ==
self.crossword.variables` — set equality of the key view with the
variable set. -/
def assignment_complete (cw : Crossword) (a : Assignment) : Bool :=
  (a.map Prod.fst).all (fun v => decide (v ∈ cw.vars)) &&
    cw.vars.all (fun v => decide (v ∈ a.map Prod.fst))

/-- The body of one iteration of `for value in self.order_domain_values(...)`:
extend the assignment, run the restricted `ac3` (its return value is
ignored; its domain mutations and exceptions are kept), then check
`consistent` and recurse.  `recurse` is the recursive `backtrack` call. -/
def exploreCandidate (cw : Crossword)
    (recurse : Domains → Assignment → Except PyErr (Domains × Option Assignment))
    (a : Assignment) (var : Variable) (value : Word) (doms : Domains) :
    Except PyErr (Domains × Option Assignment) :=
  match ac3 cw doms (some (backtrackArcs cw var)) with
  | .error e => .error e
  | .ok (doms₁, _) =>
    match consistent cw (dictSet a var value) with
    | .error e => .error e
    | .ok true => recurse doms₁ (dictSet a var value)
    | .ok false => .ok (doms₁, none)

/-- One step of the candidate loop of `backtrack`: once a truthy result
has been found it is returned unchanged past the remaining candidates
(`if result: return result`); a falsy result is discarded and the next
candidate starts from the domain store the branch left behind. -/
def backtrackStep (cw : Crossword)
    (recurse : Domains → Assignment → Except PyErr (Domains × Option Assignment))
    (a : Assignment) (var : Variable)
    (acc : Except PyErr (Domains × Option Assignment)) (value : Word) :
    Except PyErr (Domains × Option Assignment) :=
  match acc with
  | .error e => .error e
  | .ok (d, some r) => .ok (d, some r)
  | .ok (d, none) =>
    match exploreCandidate cw recurse a var value d with
    | .error e => .error e
    | .ok (d₁, r) => if pyTruthy r then .ok (d₁, r) else .ok (d₁, none)

/-- `backtrack(assignment)` of `generate.py`, with a fuel parameter for
structural recursion; each recursive call strictly grows the assignment,
so fuel exceeding the variable count is never exhausted (the
fuel-exhaustion clause mirrors the `return None` loop exit). -/
def backtrack (cw : Crossword) :
    Nat → Domains → Assignment → Except PyErr (Domains × Option Assignment)
  | 0, doms, _ => .ok (doms, none)
  | fuel + 1, doms, a =>
    if assignment_complete cw a then .ok (doms, some a)
    else
      match select_unassigned_variable cw doms a with
      | .error e => .error e
      | .ok var =>
        match order_domain_values cw doms a var with
        | .error e => .error e
        | .ok values =>
          values.foldl (backtrackStep cw (backtrack cw fuel) a var) (.ok (doms, none))

/-- `solve()` of `generate.py`: node consistency, then a full `ac3` whose
boolean result is discarded (only its domain mutations and exceptions
survive), then `backtrack` on the empty assignment — unconditionally. -/
def solve (cw : Crossword) (doms : Domains) : Except PyErr (Domains × Option Assignment) :=
  match ac3 cw (enforce_node_consistency cw doms) none with
  | .error e => .error e
  | .ok (d, _) => backtrack cw (cw.vars.length + 1) d []

/-- Spec (§4.3, §8): `xw` has a supporting word in `yDom` agreeing at the
overlap indices `ov`. -/
def hasSupport (xw : Word) (ov : Nat × Nat) (yDom : List Word) : Prop :=
  ∃ yw ∈ yDom, yw[ov.2]? = xw[ov.1]? ∧ (xw[ov.1]?).isSome

instance hasSupportDecidable (xw : Word) (ov : Nat × Nat) (yDom : List Word) :
    Decidable (hasSupport xw ov yDom) :=
  decidable_of_iff (∃ yw ∈ yDom, yw[ov.2]? = xw[ov.1]? ∧ (xw[ov.1]?).isSome) Iff.rfl

/-- An across slot of length 2 at the origin. -/
def vA : Variable := ⟨0, 0, Direction.across, 2⟩

/-- A down slot of length 2 at the origin. -/
def vB : Variable := ⟨0, 0, Direction.down, 2⟩

/-- A down slot of length 3 at the origin. -/
def vB3 : Variable := ⟨0, 0, Direction.down, 3⟩

/-- Two length-2 slots crossing at their first characters. -/
def cwAB : Crossword :=
  ⟨[vA, vB], [['a', 'b'], ['c', 'd']],
    fun u v => if (u = vA ∧ v = vB) ∨ (u = vB ∧ v = vA) then some (0, 0) else none⟩

/-- Domain store with `{"ab"}` for `vA` and `{"cd"}` for `vB`. -/
def domsAB : Domains := fun v => if v = vA then [['a', 'b']] else [['c', 'd']]

/-- Domain store with `{"ab"}` for `vA` and an empty domain elsewhere. -/
def domsEmptyB : Domains := fun v => if v = vA then [['a', 'b']] else []

/-- Richer domains for the value-ordering example. -/
def doms9 : Domains :=
  fun v => if v = vA then [['a', 'b'], ['c', 'd']] else [['a', 'x'], ['z', 'y']]

/-- A length-2 and a length-3 slot crossing at their first characters. -/
def cwMix : Crossword :=
  ⟨[vA, vB3], [['a', 'b']],
    fun u v => if (u = vA ∧ v = vB3) ∨ (u = vB3 ∧ v = vA) then some (0, 0) else none⟩

/-- Two slots with no overlap anywhere. -/
def cwIso : Crossword := ⟨[vA, vB], [['a', 'b']], fun _ _ => none⟩

/-- One word available for every slot of the isolated puzzle. -/
def domsIso : Domains := fun _ => [['a', 'b']]

/-- A single isolated slot of length 2. -/
def cwSolo : Crossword := ⟨[vA], [['a', 'b'], ['x', 'y', 'z']], fun _ _ => none⟩

/-- Initial domains of the single-slot puzzle. -/
def domsSolo : Domains := fun _ => [['a', 'b'], ['x', 'y', 'z']]

theorem setDom_self (d : Domains) (v : Variable) : setDom d v (d v) = d := by
  funext u
  unfold setDom
  split
  · rename_i h
    rw [h]
  · rfl

theorem reviseLoop_mutated (ov : Nat × Nat) (yDom : List Word) :
    ∀ xs domX revised, reviseLoop ov yDom xs domX revised true = .error .runtimeError := by
  intro xs domX revised
  cases xs <;> rfl

theorem reviseLoop_ok (ov : Nat × Nat) (yDom : List Word) :
    ∀ xs domX revised domX' revised',
      reviseLoop ov yDom xs domX revised false = .ok (domX', revised') →
      domX' = domX ∧ revised' = revised := by
  intro xs
  induction xs with
  | nil =>
    intro domX revised domX' revised' h
    simp only [reviseLoop, if_neg Bool.false_ne_true, Except.ok.injEq, Prod.mk.injEq] at h
    exact ⟨h.1.symm, h.2.symm⟩
  | cons xw rest ih =>
    intro domX revised domX' revised' h
    simp only [reviseLoop] at h
    rw [if_neg Bool.false_ne_true] at h
    cases hc : reviseComp xw ov yDom with
    | error e => rw [hc] at h; exact absurd h (by simp)
    | ok l =>
      rw [hc] at h
      dsimp only at h
      by_cases he : l.isEmpty
      · rw [if_pos he, reviseLoop_mutated] at h
        exact absurd h (by simp)
      · rw [if_neg he] at h
        exact ih domX revised domX' revised' h

/-- `revise` never reports a revision: the list comprehension is empty
iff `Domain(y)` is empty, and in that case the in-loop `remove` makes the
next iterator step raise `RuntimeError`. -/
theorem revise_ok (cw : Crossword) (doms : Domains) (x y : Variable)
    (doms' : Domains) (b : Bool) (h : revise cw doms x y = .ok (doms', b)) :
    doms' = doms ∧ b = false := by
  unfold revise at h
  cases ho : cw.overlaps x y with
  | none =>
    rw [ho] at h
    dsimp only at h
    simp only [Except.ok.injEq, Prod.mk.injEq] at h
    exact ⟨h.1.symm, h.2.symm⟩
  | some ov =>
    rw [ho] at h
    dsimp only at h
    cases hl : reviseLoop ov (doms y) (doms x) (doms x) false false with
    | error e => rw [hl] at h; exact absurd h (by simp)
    | ok p =>
      rw [hl] at h
      dsimp only at h
      obtain ⟨domX', revised'⟩ := p
      have hr := reviseLoop_ok ov (doms y) (doms x) (doms x) false domX' revised' hl
      dsimp only at h
      simp only [Except.ok.injEq, Prod.mk.injEq] at h
      refine ⟨?_, by rw [← h.2, hr.2]⟩
      rw [← h.1, hr.1, setDom_self]

theorem revise_never_revises (cw : Crossword) (doms : Domains) (x y : Variable)
    (doms' : Domains) (h : revise cw doms x y = .ok (doms', true)) : False := by
  exact absurd (revise_ok cw doms x y doms' true h).2 (by simp)

/-- When `Domain(y)` is empty and `Domain(x)` is not, `revise` removes the
first word of `Domain(x)` and then raises `RuntimeError` from the
mutated-while-iterating set. -/
theorem revise_error_of_empty (cw : Crossword) (doms : Domains) (x y : Variable)
    (ov : Nat × Nat) (ho : cw.overlaps x y = some ov) (hy : doms y = [])
    (hx : doms x ≠ []) : revise cw doms x y = .error .runtimeError := by
  unfold revise
  rw [ho]
  dsimp only
  cases hxd : doms x with
  | nil => exact absurd hxd hx
  | cons w rest =>
    rw [hy]
    simp [reviseLoop, reviseComp, reviseLoop_mutated]

/-- Along every non-raising run, `ac3` leaves every domain unchanged:
`revise` can only return "no revision, nothing removed" or raise. -/
theorem ac3Loop_ok (cw : Crossword) :
    ∀ fuel arcs doms res, ac3Loop cw fuel arcs doms = .ok res →
      res.1 = doms ∧ res.2 = true := by
  intro fuel
  induction fuel with
  | zero =>
    intro arcs doms res h
    cases arcs <;> simp only [ac3Loop, Except.ok.injEq] at h <;> rw [← h] <;> exact ⟨rfl, rfl⟩
  | succ fuel ih =>
    intro arcs doms res h
    cases arcs with
    | nil =>
      simp only [ac3Loop, Except.ok.injEq] at h
      rw [← h]
      exact ⟨rfl, rfl⟩
    | cons arc rest =>
      simp only [ac3Loop] at h
      cases hr : revise cw doms arc.1 arc.2 with
      | error e => rw [hr] at h; exact absurd h (by simp)
      | ok p =>
        rw [hr] at h
        dsimp only at h
        obtain ⟨doms', revised⟩ := p
        have hrr := revise_ok cw doms arc.1 arc.2 doms' revised hr
        rw [hrr.2] at h
        rw [if_neg Bool.false_ne_true] at h
        have := ih rest doms' res h
        rw [hrr.1] at this
        exact this

theorem ac3_ok (cw : Crossword) (doms : Domains) (arcs : Option (List Arc))
    (res : Domains × Bool) (h : ac3 cw doms arcs = .ok res) :
    res.1 = doms ∧ res.2 = true := by
  exact ac3Loop_ok cw (ac3InitArcs cw arcs).length (ac3InitArcs cw arcs) doms res h

/-- If some arc `(x, y)` of the worklist has a defined overlap, an empty
`Domain(y)` and a non-empty `Domain(x)`, the loop raises (it reaches that
arc with the domains untouched, and `revise` then mutates the set it is
iterating). -/
theorem ac3Loop_error_of_bad_arc (cw : Crossword) :
    ∀ arcs fuel doms x y ov, arcs.length ≤ fuel → (x, y) ∈ arcs →
      cw.overlaps x y = some ov → doms y = [] → doms x ≠ [] →
      ∃ e, ac3Loop cw fuel arcs doms = .error e := by
  intro arcs
  induction arcs with
  | nil =>
    intro fuel doms x y ov hfuel hmem
    exact absurd hmem (by simp)
  | cons arc rest ih =>
    intro fuel doms x y ov hfuel hmem ho hy hx
    cases fuel with
    | zero => simp at hfuel
    | succ fuel =>
      simp only [ac3Loop]
      cases hr : revise cw doms arc.1 arc.2 with
      | error e => exact ⟨e, rfl⟩
      | ok p =>
        obtain ⟨doms', revised⟩ := p
        have hrr := revise_ok cw doms arc.1 arc.2 doms' revised hr
        have harc : arc ≠ (x, y) := by
          intro hcontra
          rw [hcontra] at hr
          rw [revise_error_of_empty cw doms x y ov ho hy hx] at hr
          exact absurd hr (by simp)
        have hmem' : (x, y) ∈ rest := by
          cases List.mem_cons.mp hmem with
          | inl h => exact absurd h.symm harc
          | inr h => exact h
        dsimp only
        rw [hrr.2, if_neg Bool.false_ne_true]
        rw [hrr.1]
        exact ih fuel doms x y ov (by simpa using Nat.le_of_succ_le_succ (by simpa using hfuel)) hmem' ho hy hx

theorem pairCheckInner_ok_true (ovfn : Variable → Variable → Option (Nat × Nat))
    (v1 : Variable) (w1 : Word) :
    ∀ l : Assignment, (pairCheckInner ovfn v1 w1 l = .ok true ↔
      ∀ q ∈ l, v1 ≠ q.1 → ∀ ov : Nat × Nat, ovfn v1 q.1 = some ov →
        ∃ c, w1[ov.1]? = some c ∧ q.2[ov.2]? = some c) := by
  intro l
  induction l with
  | nil => simp [pairCheckInner]
  | cons q rest ih =>
    obtain ⟨v2, w2⟩ := q
    by_cases hv : v1 = v2
    · have hl : pairCheckInner ovfn v1 w1 ((v2, w2) :: rest) = pairCheckInner ovfn v1 w1 rest := by
        simp [pairCheckInner, hv]
      rw [hl, ih]
      simp only [List.forall_mem_cons]
      constructor
      · intro h
        exact ⟨fun hne => absurd hv hne, h⟩
      · intro h
        exact h.2
    · cases hov : ovfn v1 v2 with
      | none =>
        have hl : pairCheckInner ovfn v1 w1 ((v2, w2) :: rest) = pairCheckInner ovfn v1 w1 rest := by
          simp [pairCheckInner, hv, hov]
        rw [hl, ih]
        simp only [List.forall_mem_cons]
        constructor
        · intro h
          refine ⟨?_, h⟩
          intro _ ov hcon
          rw [hov] at hcon
          cases hcon
        · intro h
          exact h.2
      | some ov =>
        cases hg1 : w1[ov.1]? with
        | none =>
          have hl : pairCheckInner ovfn v1 w1 ((v2, w2) :: rest) = .error .indexError := by
            simp [pairCheckInner, hv, hov, hg1]
          rw [hl]
          simp only [List.forall_mem_cons]
          constructor
          · intro h
            cases h
          · intro h
            obtain ⟨c, hc1, _⟩ := h.1 hv ov hov
            rw [hg1] at hc1
            cases hc1
        | some c1 =>
          cases hg2 : w2[ov.2]? with
          | none =>
            have hl : pairCheckInner ovfn v1 w1 ((v2, w2) :: rest) = .error .indexError := by
              simp [pairCheckInner, hv, hov, hg1, hg2]
            rw [hl]
            simp only [List.forall_mem_cons]
            constructor
            · intro h
              cases h
            · intro h
              obtain ⟨c, _, hc2⟩ := h.1 hv ov hov
              rw [hg2] at hc2
              cases hc2
          | some c2 =>
            by_cases hcc : c1 = c2
            · have hl : pairCheckInner ovfn v1 w1 ((v2, w2) :: rest) =
                  pairCheckInner ovfn v1 w1 rest := by
                simp [pairCheckInner, hv, hov, hg1, hg2, hcc]
              rw [hl, ih]
              simp only [List.forall_mem_cons]
              constructor
              · intro h
                refine ⟨?_, h⟩
                intro _ ov' hov'
                rw [hov] at hov'
                injection hov' with hov''
                subst hov''
                subst hcc
                exact ⟨c1, hg1, hg2⟩
              · intro h
                exact h.2
            · have hl : pairCheckInner ovfn v1 w1 ((v2, w2) :: rest) = .ok false := by
                simp [pairCheckInner, hv, hov, hg1, hg2, hcc]
              rw [hl]
              simp only [List.forall_mem_cons]
              constructor
              · intro h
                exact absurd h (by simp)
              · intro h
                exfalso
                obtain ⟨c, hc1, hc2⟩ := h.1 hv ov hov
                rw [hg1] at hc1
                rw [hg2] at hc2
                injection hc1 with hc1
                injection hc2 with hc2
                exact hcc (by rw [hc1, hc2])

theorem pairCheckOuter_ok_true (ovfn : Variable → Variable → Option (Nat × Nat))
    (whole : Assignment) :
    ∀ l : Assignment, (pairCheckOuter ovfn whole l = .ok true ↔
      ∀ p ∈ l, pairCheckInner ovfn p.1 p.2 whole = .ok true) := by
  intro l
  induction l with
  | nil => simp [pairCheckOuter]
  | cons p rest ih =>
    obtain ⟨v1, w1⟩ := p
    cases hi : pairCheckInner ovfn v1 w1 whole with
    | error e =>
      have hl : pairCheckOuter ovfn whole ((v1, w1) :: rest) = .error e := by
        simp [pairCheckOuter, hi]
      rw [hl]
      simp only [List.forall_mem_cons]
      constructor
      · intro h
        cases h
      · intro h
        have hcontra := h.1
        rw [hi] at hcontra
        cases hcontra
    | ok b =>
      cases b with
      | false =>
        have hl : pairCheckOuter ovfn whole ((v1, w1) :: rest) = .ok false := by
          simp [pairCheckOuter, hi]
        rw [hl]
        simp only [List.forall_mem_cons]
        constructor
        · intro h
          exact absurd h (by simp)
        · intro h
          have hcontra := h.1
          rw [hi] at hcontra
          exact absurd hcontra (by simp)
      | true =>
        have hl : pairCheckOuter ovfn whole ((v1, w1) :: rest) =
            pairCheckOuter ovfn whole rest := by
          simp [pairCheckOuter, hi]
        rw [hl, ih]
        simp only [List.forall_mem_cons]
        constructor
        · intro h
          exact ⟨hi, h⟩
        · intro h
          exact h.2

theorem distinctLengthCheck_true :
    ∀ (a : Assignment) (values : List Word),
      distinctLengthCheck a values = true ↔
        ((∀ p ∈ a, p.2.length = p.1.length) ∧ (a.map Prod.snd).Nodup ∧
          ∀ w ∈ a.map Prod.snd, w ∉ values) := by
  intro a
  induction a with
  | nil => simp [distinctLengthCheck]
  | cons p rest ih =>
    obtain ⟨v, w⟩ := p
    intro values
    by_cases hbad : w ∈ values ∨ w.length ≠ v.length
    · have hl : distinctLengthCheck ((v, w) :: rest) values = false := by
        simp only [distinctLengthCheck, if_pos hbad]
      rw [hl]
      simp only [List.map_cons, List.nodup_cons, List.forall_mem_cons]
      constructor
      · intro h
        cases h
      · intro h
        cases hbad with
        | inl hmem => exact absurd hmem (h.2.2.1)
        | inr hlen => exact absurd h.1.1 hlen
    · have hl : distinctLengthCheck ((v, w) :: rest) values =
          distinctLengthCheck rest (values ++ [w]) := by
        simp only [distinctLengthCheck, if_neg hbad]
      push_neg at hbad
      rw [hl, ih]
      simp only [List.map_cons, List.nodup_cons, List.forall_mem_cons, List.mem_append,
        List.mem_singleton]
      constructor
      · intro h
        obtain ⟨hA, hB, hCD⟩ := h
        refine ⟨⟨hbad.2, hA⟩, ⟨?_, hB⟩, hbad.1, ?_⟩
        · intro hwm
          exact (hCD w hwm) (Or.inr rfl)
        · intro u hu hum
          exact (hCD u hu) (Or.inl hum)
      · intro h
        obtain ⟨⟨hlw, hA⟩, ⟨hwm, hB⟩, hwv, hC⟩ := h
        refine ⟨hA, hB, ?_⟩
        intro u hu hor
        cases hor with
        | inl h1 => exact hC u hu h1
        | inr h2 =>
          rw [h2] at hu
          exact hwm hu

theorem filter_idem (p : Word → Bool) : ∀ l : List Word, (l.filter p).filter p = l.filter p := by
  intro l
  induction l with
  | nil => rfl
  | cons w rest ih =>
    by_cases hw : p w
    · simp [List.filter_cons, hw, ih]
    · simp [List.filter_cons, hw, ih]

theorem enforce_foldl_not_mem :
    ∀ (vs : List Variable) (doms : Domains) (v : Variable), v ∉ vs →
      vs.foldl (fun d var => setDom d var ((d var).filter (fun w => w.length = var.length))) doms v
        = doms v := by
  intro vs
  induction vs with
  | nil => intro doms v _; rfl
  | cons u rest ih =>
    intro doms v hv
    have hvu : v ≠ u := fun h => hv (h ▸ List.mem_cons_self u rest)
    have hvr : v ∉ rest := fun h => hv (List.mem_cons_of_mem u h)
    simp only [List.foldl_cons]
    rw [ih _ v hvr]
    simp only [setDom, if_neg hvu]

theorem enforce_foldl_mem :
    ∀ (vs : List Variable) (doms : Domains) (v : Variable), v ∈ vs →
      vs.foldl (fun d var => setDom d var ((d var).filter (fun w => w.length = var.length))) doms v
        = (doms v).filter (fun w => w.length = v.length) := by
  intro vs
  induction vs with
  | nil => intro doms v hv; exact absurd hv (by simp)
  | cons u rest ih =>
    intro doms v hv
    simp only [List.foldl_cons]
    by_cases hvr : v ∈ rest
    · rw [ih _ v hvr]
      by_cases hvu : v = u
      · subst hvu
        simp only [setDom]
        simp only [if_pos]
        exact filter_idem _ _
      · simp only [setDom, if_neg hvu]
    · have hvu : v = u := by
        cases List.mem_cons.mp hv with
        | inl h => exact h
        | inr h => exact absurd h hvr
      subst hvu
      rw [enforce_foldl_not_mem rest _ v hvr]
      simp only [setDom]
      simp only [if_pos]

/-- Membership characterization of the pruned domains. -/
theorem enforce_mem (cw : Crossword) (doms : Domains) (v : Variable)
    (hv : v ∈ cw.vars) (w : Word) :
    w ∈ enforce_node_consistency cw doms v ↔ w ∈ doms v ∧ w.length = v.length := by
  unfold enforce_node_consistency
  rw [enforce_foldl_mem cw.vars doms v hv]
  simp [List.mem_filter]

theorem insertByCount_perm (p : Nat × Word) :
    ∀ l : List (Nat × Word), (insertByCount p l).Perm (p :: l) := by
  intro l
  induction l with
  | nil => exact List.Perm.refl _
  | cons q rest ih =>
    simp only [insertByCount]
    by_cases hle : p.1 ≤ q.1
    · rw [if_pos hle]
    · rw [if_neg hle]
      exact (ih.cons q).trans (List.Perm.swap p q rest)

theorem sortByCount_perm : ∀ l : List (Nat × Word), (sortByCount l).Perm l := by
  intro l
  induction l with
  | nil => exact List.Perm.refl _
  | cons p rest ih =>
    simp only [sortByCount]
    exact (insertByCount_perm p (sortByCount rest)).trans (ih.cons p)

theorem insertByCount_sorted (p : Nat × Word) :
    ∀ l : List (Nat × Word), List.Pairwise (fun x y : Nat × Word => x.1 ≤ y.1) l →
      List.Pairwise (fun x y : Nat × Word => x.1 ≤ y.1) (insertByCount p l) := by
  intro l
  induction l with
  | nil => intro _; exact List.pairwise_singleton _ p
  | cons q rest ih =>
    intro hp
    rw [List.pairwise_cons] at hp
    simp only [insertByCount]
    by_cases hle : p.1 ≤ q.1
    · rw [if_pos hle]
      rw [List.pairwise_cons]
      constructor
      · intro x hx
        cases List.mem_cons.mp hx with
        | inl h => rw [h]; exact hle
        | inr h => exact le_trans hle (hp.1 x h)
      · rw [List.pairwise_cons]
        exact hp
    · rw [if_neg hle]
      rw [List.pairwise_cons]
      constructor
      · intro x hx
        have hx' := (insertByCount_perm p rest).mem_iff.mp hx
        cases List.mem_cons.mp hx' with
        | inl h => rw [h]; omega
        | inr h => exact hp.1 x h
      · exact ih hp.2

theorem sortByCount_sorted :
    ∀ l : List (Nat × Word), List.Pairwise (fun x y : Nat × Word => x.1 ≤ y.1) (sortByCount l) := by
  intro l
  induction l with
  | nil => exact List.Pairwise.nil
  | cons p rest ih =>
    simp only [sortByCount]
    exact insertByCount_sorted p (sortByCount rest) ih

theorem countElims_ok (ov : Nat × Nat) (xw : Word) :
    ∀ (l : List Word) (n : Nat), countElims ov xw l = .ok n →
      n = l.countP (fun nw => decide (nw[ov.2]? ≠ xw[ov.1]?)) := by
  intro l
  induction l with
  | nil =>
    intro n h
    simp only [countElims, Except.ok.injEq] at h
    rw [← h]
    rfl
  | cons nw rest ih =>
    intro n h
    simp only [countElims] at h
    cases hn : nw[ov.2]? with
    | none => rw [hn] at h; cases h
    | some cn =>
      rw [hn] at h
      dsimp only at h
      cases hx : xw[ov.1]? with
      | none => rw [hx] at h; cases h
      | some cx =>
        rw [hx] at h
        dsimp only at h
        cases hr : countElims ov xw rest with
        | error e => rw [hr] at h; cases h
        | ok m =>
          rw [hr] at h
          dsimp only [Except.map] at h
          simp only [Except.ok.injEq] at h
          have hrest := ih m hr
          rw [hx] at hrest
          simp only [ne_eq, decide_not] at hrest
          by_cases hcc : cn = cx
          · rw [if_neg (not_not_intro hcc)] at h
            simp [List.countP_cons, hn, hcc]
            omega
          · rw [if_pos hcc] at h
            simp [List.countP_cons, hn, hcc]
            omega

theorem elimForWord_ok (cw : Crossword) (doms : Domains) (a : Assignment)
    (var : Variable) (w : Word) :
    ∀ (nbs : List Variable) (n : Nat), elimForWord cw doms a var w nbs = .ok n →
      n = ((nbs.filter (fun nb => decide (nb ∉ a.map Prod.fst))).map
        (fun nb =>
          match cw.overlaps var nb with
          | some ov => (doms nb).countP (fun nw => decide (nw[ov.2]? ≠ w[ov.1]?))
          | none => 0)).sum := by
  intro nbs
  induction nbs with
  | nil =>
    intro n h
    simp only [elimForWord, Except.ok.injEq] at h
    rw [← h]
    rfl
  | cons nb rest ih =>
    intro n h
    simp only [elimForWord] at h
    by_cases hmem : nb ∈ a.map Prod.fst
    · rw [if_pos hmem] at h
      have hd : (decide (nb ∉ a.map Prod.fst)) = false := by simp [hmem]
      rw [List.filter_cons]
      simp only [hd, Bool.false_eq_true, if_false]
      exact ih n h
    · rw [if_neg hmem] at h
      have hd : (decide (nb ∉ a.map Prod.fst)) = true := by simp [hmem]
      rw [List.filter_cons]
      simp only [hd, if_true]
      cases ho : cw.overlaps var nb with
      | none => rw [ho] at h; cases h
      | some ov =>
        rw [ho] at h
        dsimp only at h
        cases hc : countElims ov w (doms nb) with
        | error e => rw [hc] at h; cases h
        | ok n₀ =>
          rw [hc] at h
          dsimp only at h
          cases hr : elimForWord cw doms a var w rest with
          | error e => rw [hr] at h; cases h
          | ok m =>
            rw [hr] at h
            dsimp only [Except.map] at h
            simp only [Except.ok.injEq] at h
            simp only [List.map_cons, List.sum_cons, ho]
            rw [← h, countElims_ok ov w (doms nb) n₀ hc, ← ih m hr]

theorem buildElimPairs_ok (cw : Crossword) (doms : Domains) (a : Assignment)
    (var : Variable) :
    ∀ (ws : List Word) (pairs : List (Nat × Word)),
      buildElimPairs cw doms a var ws = .ok pairs →
      pairs = ws.map (fun w => (specElimCount cw doms a var w, w)) := by
  intro ws
  induction ws with
  | nil =>
    intro pairs h
    simp only [buildElimPairs, Except.ok.injEq] at h
    rw [← h]
    rfl
  | cons w rest ih =>
    intro pairs h
    simp only [buildElimPairs] at h
    cases he : elimForWord cw doms a var w (cw.neighbors var) with
    | error e => rw [he] at h; cases h
    | ok n =>
      rw [he] at h
      dsimp only at h
      cases hr : buildElimPairs cw doms a var rest with
      | error e => rw [hr] at h; cases h
      | ok l =>
        rw [hr] at h
        dsimp only [Except.map] at h
        simp only [Except.ok.injEq] at h
        rw [← h, List.map_cons]
        rw [ih l hr]
        have hn : n = specElimCount cw doms a var w :=
          elimForWord_ok cw doms a var w (cw.neighbors var) n he
        rw [hn]

theorem exploreCandidate_ok (cw : Crossword)
    (recurse : Domains → Assignment → Except PyErr (Domains × Option Assignment))
    (hrec : ∀ d na r, recurse d na = .ok r → r.1 = d)
    (a : Assignment) (var : Variable) (value : Word) (doms : Domains)
    (res : Domains × Option Assignment)
    (h : exploreCandidate cw recurse a var value doms = .ok res) : res.1 = doms := by
  unfold exploreCandidate at h
  cases ha : ac3 cw doms (some (backtrackArcs cw var)) with
  | error e => rw [ha] at h; cases h
  | ok p =>
    rw [ha] at h
    obtain ⟨doms₁, b⟩ := p
    have hd₁ : doms₁ = doms := (ac3_ok cw doms _ (doms₁, b) ha).1
    dsimp only at h
    cases hc : consistent cw (dictSet a var value) with
    | error e => rw [hc] at h; cases h
    | ok cb =>
      rw [hc] at h
      cases cb with
      | true =>
        dsimp only at h
        rw [← hd₁]
        exact hrec doms₁ (dictSet a var value) res h
      | false =>
        dsimp only at h
        simp only [Except.ok.injEq] at h
        rw [← h]
        exact hd₁

theorem backtrackStep_ok (cw : Crossword)
    (recurse : Domains → Assignment → Except PyErr (Domains × Option Assignment))
    (hrec : ∀ d na r, recurse d na = .ok r → r.1 = d)
    (a : Assignment) (var : Variable) (d : Domains) (r : Option Assignment)
    (value : Word) (res : Domains × Option Assignment)
    (h : backtrackStep cw recurse a var (.ok (d, r)) value = .ok res) : res.1 = d := by
  unfold backtrackStep at h
  cases r with
  | some r' =>
    dsimp only at h
    simp only [Except.ok.injEq] at h
    rw [← h]
  | none =>
    dsimp only at h
    cases he : exploreCandidate cw recurse a var value d with
    | error e => rw [he] at h; cases h
    | ok p =>
      rw [he] at h
      obtain ⟨d₁, r₁⟩ := p
      have hd₁ : d₁ = d := exploreCandidate_ok cw recurse hrec a var value d (d₁, r₁) he
      dsimp only at h
      by_cases ht : pyTruthy r₁
      · rw [if_pos ht] at h
        simp only [Except.ok.injEq] at h
        rw [← h]
        exact hd₁
      · rw [if_neg ht] at h
        simp only [Except.ok.injEq] at h
        rw [← h]
        exact hd₁

theorem foldl_backtrackStep_error (cw : Crossword)
    (recurse : Domains → Assignment → Except PyErr (Domains × Option Assignment))
    (a : Assignment) (var : Variable) :
    ∀ (values : List Word) (e : PyErr),
      values.foldl (backtrackStep cw recurse a var) (.error e) = .error e := by
  intro values
  induction values with
  | nil => intro e; rfl
  | cons v rest ih =>
    intro e
    simp only [List.foldl_cons]
    rw [show backtrackStep cw recurse a var (.error e) v = .error e from rfl]
    exact ih e

theorem foldl_backtrackStep_ok (cw : Crossword)
    (recurse : Domains → Assignment → Except PyErr (Domains × Option Assignment))
    (hrec : ∀ d na r, recurse d na = .ok r → r.1 = d)
    (a : Assignment) (var : Variable) :
    ∀ (values : List Word) (d : Domains) (r : Option Assignment)
      (res : Domains × Option Assignment),
      values.foldl (backtrackStep cw recurse a var) (.ok (d, r)) = .ok res →
      res.1 = d := by
  intro values
  induction values with
  | nil =>
    intro d r res h
    simp only [List.foldl_nil, Except.ok.injEq] at h
    rw [← h]
  | cons v rest ih =>
    intro d r res h
    simp only [List.foldl_cons] at h
    cases hs : backtrackStep cw recurse a var (.ok (d, r)) v with
    | error e =>
      rw [hs, foldl_backtrackStep_error] at h
      cases h
    | ok p =>
      rw [hs] at h
      obtain ⟨d₁, r₁⟩ := p
      have hd₁ : d₁ = d := backtrackStep_ok cw recurse hrec a var d r v (d₁, r₁) hs
      rw [← hd₁]
      exact ih d₁ r₁ res h

/-- Every `backtrack` call that returns leaves the domain store exactly
as it found it: the only mutating step it performs is the restricted
`ac3`, and that never succeeds in removing anything. -/
theorem backtrack_ok (cw : Crossword) :
    ∀ (fuel : Nat) (doms : Domains) (a : Assignment) (res : Domains × Option Assignment),
      backtrack cw fuel doms a = .ok res → res.1 = doms := by
  intro fuel
  induction fuel with
  | zero =>
    intro doms a res h
    simp only [backtrack, Except.ok.injEq] at h
    rw [← h]
  | succ fuel ih =>
    intro doms a res h
    simp only [backtrack] at h
    by_cases hc : assignment_complete cw a
    · rw [if_pos hc] at h
      simp only [Except.ok.injEq] at h
      rw [← h]
    · rw [if_neg hc] at h
      cases hs : select_unassigned_variable cw doms a with
      | error e => rw [hs] at h; cases h
      | ok var =>
        rw [hs] at h
        dsimp only at h
        cases ho : order_domain_values cw doms a var with
        | error e => rw [ho] at h; cases h
        | ok values =>
          rw [ho] at h
          dsimp only at h
          exact foldl_backtrackStep_ok cw (backtrack cw fuel)
            (fun d na r hr => ih d na r hr) a var values doms none res h

/-- Arcs of the full initial worklist always carry a defined overlap. -/
theorem buildAllArcs_overlap (cw : Crossword) (x y : Variable)
    (h : (x, y) ∈ buildAllArcs cw) : (cw.overlaps x y).isSome := by
  unfold buildAllArcs at h
  rw [List.mem_flatMap] at h
  obtain ⟨v1, _, hmem⟩ := h
  rw [List.mem_map] at hmem
  obtain ⟨v2, hv2, heq⟩ := hmem
  have hx : v1 = x := congrArg Prod.fst heq
  have hy : v2 = y := congrArg Prod.snd heq
  subst hx
  subst hy
  unfold Crossword.neighbors at hv2
  rw [List.mem_filter] at hv2
  have := hv2.2
  simp only [Bool.and_eq_true] at this
  exact this.2

/-- If node consistency empties the domain of `y` while the domain of a
variable `x` with an arc `(x, y)` stays non-empty, the full `ac3` run in
`solve` raises and `solve` propagates the exception. -/
theorem solve_error_of_emptied_neighbor (cw : Crossword) (doms : Domains)
    (x y : Variable) (hmem : (x, y) ∈ buildAllArcs cw)
    (hy : enforce_node_consistency cw doms y = [])
    (hx : enforce_node_consistency cw doms x ≠ []) :
    ∃ e, solve cw doms = .error e := by
  have hov := buildAllArcs_overlap cw x y hmem
  rw [Option.isSome_iff_exists] at hov
  obtain ⟨ov, hov⟩ := hov
  obtain ⟨e, he⟩ := ac3Loop_error_of_bad_arc cw (buildAllArcs cw) (buildAllArcs cw).length
    (enforce_node_consistency cw doms) x y ov (le_refl _) hmem hov hy hx
  refine ⟨e, ?_⟩
  unfold solve
  have ha : ac3 cw (enforce_node_consistency cw doms) none = .error e := he
  rw [ha]

/-- C1: the claim that `revise(x, y)` removes exactly the unsupported
words and reports whether it modified `Domain(x)` fails on the code: the
guarding list comprehension is non-empty (hence truthy) whenever
`Domain(y)` is non-empty, regardless of the characters, so at the input
Domain(vA) = {"ab"}, Domain(vB) = {"cd"} with overlap (0, 0) the
unsupported word "ab" is kept and `False` is returned, and when
`Domain(y)` is empty the in-loop `remove` raises `RuntimeError` instead
of returning. -/
theorem c1_revise_keeps_unsupported_word :
    (revise cwAB domsAB vA vB).map (fun r => (r.1 vA, r.2)) = .ok ([['a', 'b']], false)
    ∧ cwAB.overlaps vA vB = some (0, 0)
    ∧ ¬ hasSupport ['a', 'b'] (0, 0) (domsAB vB)
    ∧ (revise cwAB domsEmptyB vA vB).map Prod.snd = .error .runtimeError := by
  refine ⟨rfl, rfl, by decide, rfl⟩

/-- C2: the claim that a successful argument-less `ac3` leaves every
remaining word supported fails on the code: on Domain(vA) = {"ab"},
Domain(vB) = {"cd"} with overlap (0, 0) in both directions, `ac3` returns
success leaving both domains untouched although "ab" has no support in
Domain(vB). -/
theorem c2_ac3_success_without_support :
    (ac3 cwAB domsAB none).map (fun r => (r.1 vA, r.1 vB, r.2))
      = .ok ([['a', 'b']], [['c', 'd']], true)
    ∧ cwAB.overlaps vA vB = some (0, 0)
    ∧ ¬ hasSupport ['a', 'b'] (0, 0) [['c', 'd']] := by
  refine ⟨rfl, rfl, by decide⟩

/-- C5: the claim that `ac3` returns failure exactly when a domain
becomes empty during propagation fails on the code: with
Domain(vA) = {"ab"} and Domain(vB) = {} the first processed arc empties
Domain(vA), but instead of returning `False` the call raises
`RuntimeError` (the `revise` loop removed an element of the set it was
iterating); the `return False` branch is unreachable because `revise`
never returns `True`. -/
theorem c5_ac3_raises_instead_of_failure :
    (ac3 cwAB domsEmptyB none).map Prod.snd = .error .runtimeError
    ∧ (revise cwAB domsEmptyB vA vB).map Prod.snd = .error .runtimeError := by
  refine ⟨rfl, rfl⟩

/-- C4 (counterexample): a puzzle in which `enforce_node_consistency`
empties the domain of `vB3` (its only word has the wrong length) while
`vA` keeps a word; the claim says `solve` returns the no-solution
sentinel without entering backtracking, but `solve` raises
`RuntimeError` out of the full `ac3` call instead. -/
theorem c4_counterexample :
    enforce_node_consistency cwMix (initDomains cwMix) vB3 = []
    ∧ enforce_node_consistency cwMix (initDomains cwMix) vA = [['a', 'b']]
    ∧ (solve cwMix (initDomains cwMix)).map Prod.snd = .error .runtimeError := by
  refine ⟨rfl, rfl, rfl⟩

/-- C4 (amended): `solve()` runs `enforce_node_consistency`, then full
`ac3`, but ignores the propagation verdict and proceeds to `backtrack`
unconditionally whenever `ac3` returns; if the propagation raises — the
only failure mode it has, arising e.g. whenever node consistency emptied
the domain of one endpoint of an arc while the other endpoint's domain
stayed non-empty — `solve` propagates the exception instead of returning
the no-solution sentinel. -/
theorem c4_solve_ignores_propagation_result (cw : Crossword) (doms : Domains) :
    (∀ (d : Domains) (b : Bool),
        ac3 cw (enforce_node_consistency cw doms) none = .ok (d, b) →
        solve cw doms = backtrack cw (cw.vars.length + 1) d [])
    ∧ (∀ x y : Variable, (x, y) ∈ buildAllArcs cw →
        enforce_node_consistency cw doms y = [] →
        enforce_node_consistency cw doms x ≠ [] →
        ∃ e, solve cw doms = .error e) := by
  constructor
  · intro d b hac
    unfold solve
    rw [hac]
  · intro x y hmem hy hx
    exact solve_error_of_emptied_neighbor cw doms x y hmem hy hx

theorem c4_amended_witness :
    solve cwSolo domsSolo
      = backtrack cwSolo (cwSolo.vars.length + 1) (enforce_node_consistency cwSolo domsSolo) []
    ∧ ∃ e, solve cwMix (initDomains cwMix) = .error e :=
  ⟨(c4_solve_ignores_propagation_result cwSolo domsSolo).1
      (enforce_node_consistency cwSolo domsSolo) true rfl,
    (c4_solve_ignores_propagation_result cwMix (initDomains cwMix)).2 vA vB3
      (by decide) (by decide) (by decide)⟩

/-- C3: branch isolation holds in the code: when the candidate loop of
`backtrack` finishes exploring one candidate without producing a truthy
result, the domain store handed to the next candidate (the accumulator
of the loop) is exactly the store from before the rejected branch —
the restricted `ac3` call and every nested `backtrack` call leave the
store untouched on every non-raising path. -/
theorem c3_branch_isolation (cw : Crossword) (fuel : Nat) (a : Assignment)
    (var : Variable) (value : Word) (doms doms₁ : Domains)
    (h : backtrackStep cw (backtrack cw fuel) a var (.ok (doms, none)) value
      = .ok (doms₁, none)) :
    doms₁ = doms :=
  backtrackStep_ok cw (backtrack cw fuel)
    (fun d na r hr => backtrack_ok cw fuel d na r hr) a var doms none value (doms₁, none) h

theorem c3_witness :
    backtrackStep cwSolo (backtrack cwSolo 1) [] vA (.ok (domsSolo, none)) ['x']
      = .ok (domsSolo, none)
    ∧ domsSolo = domsSolo :=
  ⟨rfl, c3_branch_isolation cwSolo 1 [] vA ['x'] domsSolo domsSolo rfl⟩

/-- C6: `consistent(assignment)` returns `True` exactly when every pair
of distinct assigned variables with a defined overlap agrees at the
overlap indices, every assigned word has its variable's length, and all
assigned words are pairwise distinct across the whole assignment; the
embedded `consistent` is a pure function of the overlap map and the
assignment, so it mutates no solver state. -/
theorem c6_consistent_correct (cw : Crossword) (a : Assignment) :
    consistent cw a = .ok true ↔
      specOverlapsAgree cw a ∧ specLengthsOk a ∧ specWordsDistinct a := by
  unfold consistent
  cases ho : pairCheckOuter cw.overlaps a a with
  | error e =>
    dsimp only
    constructor
    · intro h
      cases h
    · intro h
      exfalso
      have hth : pairCheckOuter cw.overlaps a a = .ok true := by
        rw [pairCheckOuter_ok_true]
        intro p hp
        rw [pairCheckInner_ok_true]
        intro q hq hne ov hov
        exact h.1 p hp q hq hne ov hov
      rw [ho] at hth
      cases hth
  | ok b =>
    cases b with
    | false =>
      dsimp only
      constructor
      · intro h
        exact absurd h (by simp)
      · intro h
        exfalso
        have hth : pairCheckOuter cw.overlaps a a = .ok true := by
          rw [pairCheckOuter_ok_true]
          intro p hp
          rw [pairCheckInner_ok_true]
          intro q hq hne ov hov
          exact h.1 p hp q hq hne ov hov
        rw [ho] at hth
        exact absurd hth (by simp)
    | true =>
      dsimp only
      have hagree : specOverlapsAgree cw a := by
        intro p hp q hq hne ov hov
        have h1 := (pairCheckOuter_ok_true cw.overlaps a a).mp ho p hp
        exact (pairCheckInner_ok_true cw.overlaps p.1 p.2 a).mp h1 q hq hne ov hov
      constructor
      · intro h
        simp only [Except.ok.injEq] at h
        have hd := (distinctLengthCheck_true a []).mp h
        exact ⟨hagree, hd.1, hd.2.1⟩
      · intro h
        have hd : distinctLengthCheck a [] = true := by
          rw [distinctLengthCheck_true]
          exact ⟨h.2.1, h.2.2, fun w _ hw => by cases hw⟩
        rw [hd]

/-- C7: after `enforce_node_consistency`, the domain of every puzzle
variable `v` consists of exactly the original candidates whose length
equals `v.length`: every remaining word has the right length and only
wrong-length words were removed. -/
theorem c7_node_consistency_sound (cw : Crossword) (doms : Domains) (v : Variable)
    (hv : v ∈ cw.vars) (w : Word) :
    w ∈ enforce_node_consistency cw doms v ↔ w ∈ doms v ∧ w.length = v.length :=
  enforce_mem cw doms v hv w

theorem c7_witness :
    vA ∈ cwSolo.vars
    ∧ ((['a', 'b'] : Word) ∈ enforce_node_consistency cwSolo domsSolo vA ↔
        (['a', 'b'] : Word) ∈ domsSolo vA ∧ (['a', 'b'] : Word).length = vA.length) :=
  ⟨by decide, c7_node_consistency_sound cwSolo domsSolo vA (by decide) ['a', 'b']⟩

/-- C8: the claim that `select_unassigned_variable` always returns a
minimal-domain unassigned variable (breaking ties by maximal degree)
fails on the code: with two unassigned zero-degree variables tied on
domain size, the degree loop never improves on `max_degree = 0`, so the
local `var_to_be_assigned` is never bound and the `return` raises
`UnboundLocalError` instead of returning one of the tied variables. -/
theorem c8_select_unbound_local :
    select_unassigned_variable cwIso domsIso [] = .error .unboundLocalError := by
  rfl

/-- C9: `order_domain_values(var, assignment)` returns the words of
`Domain(var)` sorted ascending by elimination count, the count of a word
being the sum over unassigned neighbors of the number of neighbor-domain
words whose character at the neighbor's overlap index differs from the
word's character at var's overlap index (`specElimCount`). -/
theorem c9_order_domain_values_sorted (cw : Crossword) (doms : Domains)
    (a : Assignment) (var : Variable) (res : List Word)
    (h : order_domain_values cw doms a var = .ok res) :
    ∃ pairs : List (Nat × Word),
      res = pairs.map Prod.snd
      ∧ pairs.Perm ((doms var).map (fun w => (specElimCount cw doms a var w, w)))
      ∧ List.Pairwise (fun p q : Nat × Word => p.1 ≤ q.1) pairs := by
  unfold order_domain_values at h
  cases hb : buildElimPairs cw doms a var (doms var) with
  | error e => rw [hb] at h; cases h
  | ok pairs0 =>
    rw [hb] at h
    dsimp only at h
    simp only [Except.ok.injEq] at h
    refine ⟨sortByCount pairs0, h.symm, ?_, sortByCount_sorted pairs0⟩
    rw [← buildElimPairs_ok cw doms a var (doms var) pairs0 hb]
    exact sortByCount_perm pairs0

theorem c9_witness :
    ∃ pairs : List (Nat × Word),
      [['a', 'b'], ['c', 'd']] = pairs.map Prod.snd
      ∧ pairs.Perm ((doms9 vA).map (fun w => (specElimCount cwAB doms9 [] vA w, w)))
      ∧ List.Pairwise (fun p q : Nat × Word => p.1 ≤ q.1) pairs :=
  c9_order_domain_values_sorted cwAB doms9 [] vA [['a', 'b'], ['c', 'd']] rfl

/-- C10: an explicitly supplied empty arc list is falsy, so `ac3([])`
rebuilds the full worklist exactly as `ac3()` does; consequently the
restricted propagation step of `backtrack` for a variable with zero
neighbors (whose arc list `[(neighbor, var) ...]` is empty) runs full
arc consistency over all arcs of the puzzle. -/
theorem c10_empty_arcs_run_full_propagation (cw : Crossword) (doms : Domains)
    (var : Variable) (h : cw.neighbors var = []) :
    ac3 cw doms (some (backtrackArcs cw var)) = ac3 cw doms none
    ∧ ac3 cw doms (some []) = ac3 cw doms none := by
  constructor
  · unfold ac3 ac3InitArcs backtrackArcs
    rw [h]
    rfl
  · rfl

theorem c10_witness :
    cwSolo.neighbors vA = []
    ∧ (ac3 cwSolo domsSolo (some (backtrackArcs cwSolo vA)) = ac3 cwSolo domsSolo none
      ∧ ac3 cwSolo domsSolo (some []) = ac3 cwSolo domsSolo none) :=
  ⟨by decide, c10_empty_arcs_run_full_propagation cwSolo domsSolo vA (by decide)⟩
